import Mathlib

set_option maxRecDepth 200000

/-!
Verification development for the OAuth / message-integrity layer of a
Shopify client library (`oauth.go` of package `goshopify`).

Go strings and byte slices are modelled as `List Nat` with each element a
byte value (`< 256`); ASCII string literals are injected with `strB`.
The cryptographic primitives used by the package (`crypto/sha256`,
`crypto/hmac`, `encoding/hex`, `encoding/base64`, and the relevant parts
of `net/url`) are external collaborators from the Go standard library and
are embedded here executably, faithful to their documented and
implemented behaviour on byte strings.
-/

namespace GoShopify

/-- Bytes of an ASCII Lean string literal, modelling the Go string's bytes. -/
def strB (s : String) : List Nat := s.data.map Char.toNat

/-! ### SHA-256 (crypto/sha256) -/

/-- Truncation to a 32-bit word. -/
def w32 (x : Nat) : Nat := x % 4294967296

/-- 32-bit modular addition. -/
def wadd (a b : Nat) : Nat := (a + b) % 4294967296

/-- 32-bit right rotation (argument assumed `< 2^32`). -/
def rotr (n x : Nat) : Nat := ((x >>> n) ||| (x <<< (32 - n))) % 4294967296

/-- SHA-256 `Ch` function. -/
def chF (e f g : Nat) : Nat := (e &&& f) ^^^ ((e ^^^ 4294967295) &&& g)

/-- SHA-256 `Maj` function. -/
def majF (a b c : Nat) : Nat := Nat.xor (a &&& b) (Nat.xor (a &&& c) (b &&& c))

/-- SHA-256 big sigma 0. -/
def bsig0 (x : Nat) : Nat := rotr 2 x ^^^ rotr 13 x ^^^ rotr 22 x

/-- SHA-256 big sigma 1. -/
def bsig1 (x : Nat) : Nat := rotr 6 x ^^^ rotr 11 x ^^^ rotr 25 x

/-- SHA-256 small sigma 0. -/
def ssig0 (x : Nat) : Nat := rotr 7 x ^^^ rotr 18 x ^^^ (x >>> 3)

/-- SHA-256 small sigma 1. -/
def ssig1 (x : Nat) : Nat := rotr 17 x ^^^ rotr 19 x ^^^ (x >>> 10)

/-- The SHA-256 round constants (FIPS 180-4, written in decimal). -/
def K256 : List Nat :=
  [1116352408, 1899447441, 3049323471, 3921009573, 961987163, 1508970993,
   2453635748, 2870763221, 3624381080, 310598401, 607225278, 1426881987,
   1925078388, 2162078206, 2614888103, 3248222580, 3835390401, 4022224774,
   264347078, 604807628, 770255983, 1249150122, 1555081692, 1996064986,
   2554220882, 2821834349, 2952996808, 3210313671, 3336571891, 3584528711,
   113926993, 338241895, 666307205, 773529912, 1294757372, 1396182291,
   1695183700, 1986661051, 2177026350, 2456956037, 2730485921, 2820302411,
   3259730800, 3345764771, 3516065817, 3600352804, 4094571909, 275423344,
   430227734, 506948616, 659060556, 883997877, 958139571, 1322822218,
   1537002063, 1747873779, 1955562222, 2024104815, 2227730452, 2361852424,
   2428436474, 2756734187, 3204031479, 3329325298]

/-- Working state of the SHA-256 compression function. -/
structure H8 where
  a : Nat
  b : Nat
  c : Nat
  d : Nat
  e : Nat
  f : Nat
  g : Nat
  h : Nat
deriving DecidableEq

/-- SHA-256 initial hash value. -/
def H0 : H8 :=
  ⟨1779033703, 3144134277, 1013904242, 2773480762,
   1359893119, 2600822924, 528734635, 1541459225⟩

/-- Extend a reversed (newest-first) message schedule by 48 words. -/
def schedExt (ws : List Nat) : List Nat :=
  (List.range 48).foldl
    (fun acc _ =>
      wadd (wadd (ssig1 (acc.getD 1 0)) (acc.getD 6 0))
           (wadd (ssig0 (acc.getD 14 0)) (acc.getD 15 0)) :: acc)
    ws

/-- Full 64-word message schedule from a 16-word block. -/
def messageSchedule (block16 : List Nat) : List Nat := (schedExt block16.reverse).reverse

/-- One SHA-256 round, consuming a `(K[t], W[t])` pair. -/
def compressStep (s : H8) (kw : Nat × Nat) : H8 :=
  let t1 := wadd s.h (wadd (bsig1 s.e) (wadd (chF s.e s.f s.g) (wadd kw.1 kw.2)))
  let t2 := wadd (bsig0 s.a) (majF s.a s.b s.c)
  ⟨wadd t1 t2, s.a, s.b, s.c, wadd s.d t1, s.e, s.f, s.g⟩

/-- SHA-256 compression of one 16-word block into the chaining state. -/
def compressBlock (s : H8) (block16 : List Nat) : H8 :=
  let t := (K256.zip (messageSchedule block16)).foldl compressStep s
  ⟨wadd s.a t.a, wadd s.b t.b, wadd s.c t.c, wadd s.d t.d,
   wadd s.e t.e, wadd s.f t.f, wadd s.g t.g, wadd s.h t.h⟩

/-- Big-endian 8-byte encoding of a (64-bit) natural number. -/
def be64 (n : Nat) : List Nat :=
  [(n >>> 56) % 256, (n >>> 48) % 256, (n >>> 40) % 256, (n >>> 32) % 256,
   (n >>> 24) % 256, (n >>> 16) % 256, (n >>> 8) % 256, n % 256]

/-- SHA-256 padding: a 1-bit, zeros to 56 mod 64, then the bit length. -/
def padMessage (msg : List Nat) : List Nat :=
  msg ++ 128 :: List.replicate ((119 - msg.length % 64) % 64) 0 ++ be64 (8 * msg.length)

/-- Big-endian packing of bytes into 32-bit words. -/
def toWords : List Nat → List Nat
  | b0 :: b1 :: b2 :: b3 :: rest => (((b0 * 256 + b1) * 256 + b2) * 256 + b3) :: toWords rest
  | _ => []

/-- Split a byte string into 16-word blocks; the first argument is
recursion fuel, always instantiated with the list's length (each step
consumes at least one byte, so that much fuel suffices). -/
def blocks64Aux : Nat → List Nat → List (List Nat)
  | _, [] => []
  | 0, _ :: _ => []
  | n + 1, b :: rest => toWords ((b :: rest).take 64) :: blocks64Aux n ((b :: rest).drop 64)

/-- Split a (padded) byte string into 16-word blocks. -/
def blocks64 (l : List Nat) : List (List Nat) := blocks64Aux l.length l

/-- Big-endian bytes of a 32-bit word. -/
def wbytes (w : Nat) : List Nat := [(w >>> 24) % 256, (w >>> 16) % 256, (w >>> 8) % 256, w % 256]

/-- Serialize the final SHA-256 state as the 32-byte digest. -/
def digestBytes (s : H8) : List Nat :=
  wbytes s.a ++ wbytes s.b ++ wbytes s.c ++ wbytes s.d ++
  wbytes s.e ++ wbytes s.f ++ wbytes s.g ++ wbytes s.h

/-- SHA-256 of a byte string. -/
def sha256 (msg : List Nat) : List Nat :=
  digestBytes ((blocks64 (padMessage msg)).foldl compressBlock H0)

/-! ### HMAC-SHA256 (crypto/hmac with crypto/sha256) -/

/-- HMAC-SHA256 digest: `hmac.New(sha256.New, key)` fed `msg`, then `Sum`. -/
def hmacSha256Digest (key msg : List Nat) : List Nat :=
  let k0 := if 64 < key.length then sha256 key else key
  let k := k0 ++ List.replicate (64 - k0.length) 0
  sha256 ((k.map fun b => b ^^^ 92) ++ sha256 ((k.map fun b => b ^^^ 54) ++ msg))

/-- Model of `crypto/hmac.Equal` (`subtle.ConstantTimeCompare`): equal length
and equal bytes; a length mismatch is just `false`, never a fault. -/
def hmacEqual (a b : List Nat) : Bool := a == b

/-! ### Hex encoding (encoding/hex) -/

/-- Lowercase hex digit byte for a value `< 16` (Go's `hextable`). -/
def hexDigitL (n : Nat) : Nat := if n < 10 then 48 + n else 87 + n

/-- Hex encoding of a byte string, two lowercase digits per byte
(`hex.Encode` / the `%x` verb of `fmt`). -/
def hexEncode (bs : List Nat) : List Nat :=
  bs.flatMap fun b => [hexDigitL (b / 16), hexDigitL (b % 16)]

/-- Value of one hex character byte, accepting `0-9`, `a-f`, `A-F`. -/
def fromHexChar (c : Nat) : Option Nat :=
  if 48 ≤ c ∧ c ≤ 57 then some (c - 48)
  else if 97 ≤ c ∧ c ≤ 102 then some (c - 87)
  else if 65 ≤ c ∧ c ≤ 70 then some (c - 55)
  else none

/-- Model of `hex.DecodeString`: Go's `Decode` loop consumes hex digit
pairs and, on the first invalid character or on a dangling odd digit,
returns the bytes decoded so far TOGETHER with an error.  The first
component is the (possibly partial) decoded prefix, the second is
whether an error was reported. -/
def hexDecodeLoop : List Nat → List Nat × Bool
  | p :: q :: rest =>
    match fromHexChar p, fromHexChar q with
    | some a, some b => let r := hexDecodeLoop rest; ((a * 16 + b) :: r.1, r.2)
    | _, _ => ([], true)
  | [_] => ([], true)
  | [] => ([], false)

/-! ### Base64 encoding (encoding/base64, `StdEncoding`) -/

/-- Byte of the `i`-th standard base64 alphabet character (`i < 64`). -/
def b64Char (i : Nat) : Nat :=
  if i < 26 then 65 + i
  else if i < 52 then 71 + i
  else if i < 62 then i - 4
  else if i = 62 then 43 else 47

/-- `base64.StdEncoding.EncodeToString` on bytes, with `=` padding. -/
def b64Encode : List Nat → List Nat
  | a :: b :: c :: rest =>
    b64Char (a / 4) :: b64Char (a % 4 * 16 + b / 16) :: b64Char (b % 16 * 4 + c / 64) ::
      b64Char (c % 64) :: b64Encode rest
  | [a, b] => [b64Char (a / 4), b64Char (a % 4 * 16 + b / 16), b64Char (b % 16 * 4), 61]
  | [a] => [b64Char (a / 4), b64Char (a % 4 * 16), 61, 61]
  | [] => []

/-- Index of a standard base64 alphabet byte, `none` for anything else. -/
def b64Index (c : Nat) : Option Nat :=
  if 65 ≤ c ∧ c ≤ 90 then some (c - 65)
  else if 97 ≤ c ∧ c ≤ 122 then some (c - 71)
  else if 48 ≤ c ∧ c ≤ 57 then some (c + 4)
  else if c = 43 then some 62
  else if c = 47 then some 63
  else none

/-- Base64 decoding of four-character quanta; `=` padding is accepted only
in the final quantum, as in Go's `StdEncoding` decoder (which drops any
non-zero trailing bits rather than rejecting them). -/
def b64DecodeQ : List Nat → Option (List Nat)
  | [] => some []
  | [c0, c1, c2, c3] =>
    match b64Index c0, b64Index c1 with
    | some i0, some i1 =>
      if c2 = 61 then
        if c3 = 61 then some [i0 * 4 + i1 / 16] else none
      else
        match b64Index c2 with
        | some i2 =>
          if c3 = 61 then some [i0 * 4 + i1 / 16, i1 % 16 * 16 + i2 / 4]
          else
            match b64Index c3 with
            | some i3 => some [i0 * 4 + i1 / 16, i1 % 16 * 16 + i2 / 4, i2 % 4 * 64 + i3]
            | none => none
        | none => none
    | _, _ => none
  | c0 :: c1 :: c2 :: c3 :: rest =>
    match b64Index c0, b64Index c1, b64Index c2, b64Index c3 with
    | some i0, some i1, some i2, some i3 =>
      (b64DecodeQ rest).map
        ([i0 * 4 + i1 / 16, i1 % 16 * 16 + i2 / 4, i2 % 4 * 64 + i3] ++ ·)
    | _, _, _, _ => none
  | _ => none

/-- Model of `base64.StdEncoding.DecodeString`: newline bytes are ignored,
then the string is decoded quantum by quantum; `none` models a
`CorruptInputError` (also produced by a length not divisible by four). -/
def b64Decode (s : List Nat) : Option (List Nat) :=
  b64DecodeQ (s.filter fun c => c != 13 && c != 10)

/-! ### The `App` data model and `VerifyMessage` -/

/-- Modelled from the spec: the `App` struct is declared outside the
verified source file; per §3 its credentials are the public API key, the
API secret (shared HMAC key), the redirect URL and the OAuth scope
string.  The HTTP client field is irrelevant to every claim here and is
omitted. -/
structure App where
  ApiKey : List Nat
  ApiSecret : List Nat
  RedirectUrl : List Nat
  Scope : List Nat
deriving DecidableEq

/-- `App.VerifyMessage` from `oauth.go`: HMAC-SHA256 of `message` under
`ApiSecret`, compared with `hmac.Equal` against the hex-decoded
`messageMAC`; the decode error is discarded with `_`, so the (possibly
partial) decoded prefix is what gets compared. -/
def VerifyMessage (app : App) (message messageMAC : List Nat) : Bool :=
  let expectedMAC := hmacSha256Digest app.ApiSecret message
  let actualMac := (hexDecodeLoop messageMAC).1
  hmacEqual actualMac expectedMAC

/-! ### HTTP request bodies and the webhook verifiers -/

/-- Model of an HTTP request body stream: `avail` is what a full
`ioutil.ReadAll` will yield before hitting EOF (or the error), `readErr`
is whether the read ends in an error instead of EOF.  A
`ioutil.NopCloser(bytes.NewBuffer(bs))` is `⟨bs, false⟩`. -/
structure BodyStream where
  avail : List Nat
  readErr : Bool
deriving DecidableEq

/-- `ioutil.ReadAll`: yields the available bytes and the error flag, and
leaves the stream drained (a second read yields nothing). -/
def readAll (b : BodyStream) : (List Nat × Bool) × BodyStream :=
  ((b.avail, b.readErr), ⟨[], b.readErr⟩)

/-- Model of the parts of `*http.Request` the verifiers touch:
`hmacHeader` is `Header.Get("X-Shopify-Hmac-Sha256")`, which returns the
empty string when the header is absent, and `body` is the body stream. -/
structure Request where
  hmacHeader : List Nat
  body : BodyStream
deriving DecidableEq

/-- `App.VerifyWebhookRequest` from `oauth.go`: reads the whole body
(ignoring any read error), replaces the body with a fresh buffer of the
bytes read, and compares the raw header string byte-for-byte against the
base64 encoding of the computed HMAC.  Returns the verdict together with
the request as the caller sees it afterwards (the body mutation). -/
def VerifyWebhookRequest (app : App) (httpRequest : Request) : Bool × Request :=
  let shopifySha256 := httpRequest.hmacHeader
  let actualMac := shopifySha256
  let res := readAll httpRequest.body
  let requestBody := res.1.1
  let httpRequest' := { httpRequest with body := ⟨requestBody, false⟩ }
  let macSum := hmacSha256Digest app.ApiSecret requestBody
  let expectedMac := b64Encode macSum
  (hmacEqual actualMac expectedMac, httpRequest')

/-- The distinct error values `App.VerifyWebhookRequestVerbose` can
return: empty secret, unset header, base64 `CorruptInputError`, decoded
HMAC of the wrong length (carrying that length), body read error, empty
body, and digest mismatch (carrying both digests hex-encoded, as the
`%x` verbs of its message format them). -/
inductive WebhookError where
  | apiSecretEmpty : WebhookError
  | headerNotSet : WebhookError
  | base64DecodeError : WebhookError
  | wrongLength : Nat → WebhookError
  | readError : WebhookError
  | bodyEmpty : WebhookError
  | mismatch : List Nat → List Nat → WebhookError
deriving DecidableEq

/-- `App.VerifyWebhookRequestVerbose` from `oauth.go`, checking its
preconditions in source order.  Note that on a body read error it
returns before the body-restoring assignment, leaving the drained
stream in place; on every later path the body has been replaced by a
fresh buffer of the bytes read. -/
def VerifyWebhookRequestVerbose (app : App) (httpRequest : Request) :
    (Bool × Option WebhookError) × Request :=
  if app.ApiSecret = [] then ((false, some .apiSecretEmpty), httpRequest)
  else
    let shopifySha256 := httpRequest.hmacHeader
    if shopifySha256 = [] then ((false, some .headerNotSet), httpRequest)
    else
      match b64Decode shopifySha256 with
      | none => ((false, some .base64DecodeError), httpRequest)
      | some decodedReceivedHMAC =>
        if decodedReceivedHMAC.length ≠ 32 then
          ((false, some (.wrongLength decodedReceivedHMAC.length)), httpRequest)
        else
          let res := readAll httpRequest.body
          let requestBody := res.1.1
          if res.1.2 then ((false, some .readError), { httpRequest with body := res.2 })
          else
            let httpRequest' := { httpRequest with body := ⟨requestBody, false⟩ }
            if requestBody.length = 0 then ((false, some .bodyEmpty), httpRequest')
            else
              let computedHMAC := hmacSha256Digest app.ApiSecret requestBody
              if hmacEqual decodedReceivedHMAC computedHMAC then ((true, none), httpRequest')
              else
                ((false, some (.mismatch (hexEncode computedHMAC) (hexEncode decodedReceivedHMAC))),
                  httpRequest')

/-! ### Query strings (net/url): escaping, parsing, encoding -/

/-- Whether `lo ≤ c && c ≤ hi`, for the byte-class tests of net/url. -/
def inRange (lo hi c : Nat) : Bool := lo ≤ c && c ≤ hi

/-- Uppercase hex digit byte for a value `< 16` (net/url's `upperhex`). -/
def hexDigitU (n : Nat) : Nat := if n < 10 then 48 + n else 55 + n

/-- Whether a byte is left unescaped by `url.QueryEscape`: alphanumerics
and `-` `_` `.` `~`. -/
def isUnreserved (c : Nat) : Bool :=
  inRange 48 57 c || inRange 65 90 c || inRange 97 122 c ||
    c == 45 || c == 95 || c == 46 || c == 126

/-- `url.QueryEscape`: space becomes `+`, unreserved bytes pass through,
everything else becomes `%XX` with uppercase hex. -/
def queryEscape (s : List Nat) : List Nat :=
  s.flatMap fun c =>
    if c = 32 then [43]
    else if isUnreserved c then [c]
    else [37, hexDigitU (c / 16), hexDigitU (c % 16)]

/-- Whether a byte is an ASCII hex digit. -/
def isHexB (c : Nat) : Bool :=
  inRange 48 57 c || inRange 97 102 c || inRange 65 70 c

/-- Numeric value of an ASCII hex digit byte. -/
def unhex (c : Nat) : Nat :=
  if c ≤ 57 then c - 48 else if c ≤ 70 then c - 55 else c - 87

/-- `url.QueryUnescape`: `%XX` becomes the byte `XX`, `+` becomes space,
and a `%` not followed by two hex digits is an `InvalidEscapeError`
(modelled as `none`; Go then returns the empty string with the error). -/
def queryUnescape : List Nat → Option (List Nat)
  | [] => some []
  | c :: rest =>
    if c = 37 then
      match rest with
      | a :: b :: rest2 =>
        if isHexB a && isHexB b then (queryUnescape rest2).map ((unhex a * 16 + unhex b) :: ·)
        else none
      | _ => none
    else if c = 43 then (queryUnescape rest).map (32 :: ·)
    else (queryUnescape rest).map (c :: ·)

/-- `url.Values`: Go's `map[string][]string`, modelled as an association
list keyed in first-appearance order (the map itself is unordered; every
consumer below is insensitive to this order, which claim C7 examines). -/
abbrev Values := List (List Nat × List (List Nat))

/-- All values bound to a key (Go `v[key]`, zero value `[]`). -/
def valuesGetAll (v : Values) (k : List Nat) : List (List Nat) :=
  match v.find? fun p => p.1 == k with
  | some p => p.2
  | none => []

/-- `url.Values.Get`: the first value bound to the key, or the empty
string. -/
def valuesGet (v : Values) (k : List Nat) : List Nat :=
  match valuesGetAll v k with
  | [] => []
  | x :: _ => x

/-- `url.Values.Del`: remove the key. -/
def valuesDel (v : Values) (k : List Nat) : Values :=
  v.filter fun p => p.1 != k

/-- `m[key] = append(m[key], value)` on the association list. -/
def valuesAdd (v : Values) (k val : List Nat) : Values :=
  match v with
  | [] => [(k, [val])]
  | p :: rest => if p.1 == k then (p.1, p.2 ++ [val]) :: rest else p :: valuesAdd rest k val

/-- `url.Values.Set`: bind the key to exactly one value. -/
def valuesSet (v : Values) (k val : List Nat) : Values :=
  match v with
  | [] => [(k, [val])]
  | p :: rest => if p.1 == k then (k, [val]) :: rest else p :: valuesSet rest k val

/-- Split a byte string at every occurrence of the separator byte
(`strings.Cut` applied repeatedly, as in `url.ParseQuery`). -/
def splitOnByte (sep : Nat) : List Nat → List Nat → List (List Nat)
  | [], acc => [acc.reverse]
  | c :: rest, acc =>
    if c = sep then acc.reverse :: splitOnByte sep rest []
    else splitOnByte sep rest (c :: acc)

/-- `strings.Cut` at the first occurrence of a byte: `(before, after)`,
with `after = []` when the byte is absent. -/
def cutByte (sep : Nat) : List Nat → List Nat × List Nat
  | [] => ([], [])
  | c :: rest =>
    if c = sep then ([], rest)
    else
      let r := cutByte sep rest
      (c :: r.1, r.2)

/-- One `url.ParseQuery` loop iteration on a `&`-separated segment:
segments containing `;` are rejected, empty segments are skipped, the
segment is cut at the first `=`, and both sides are query-unescaped; a
segment whose key or value fails to unescape is skipped. -/
def parseSegment (kv : List Nat) : Option (List Nat × List Nat) :=
  if kv.contains 59 then none
  else if kv = [] then none
  else
    let c := cutByte 61 kv
    match queryUnescape c.1, queryUnescape c.2 with
    | some k, some val => some (k, val)
    | _, _ => none

/-- The ordered list of key/value pairs a raw query contributes, in
insertion order (the linearization `url.ParseQuery` folds into its map). -/
def rawParams (query : List Nat) : List (List Nat × List Nat) :=
  (splitOnByte 38 query []).filterMap parseSegment

/-- `url.ParseQuery`, as used by `URL.Query()` (the error is discarded
there): fold the pairs into the map. -/
def parseQuery (query : List Nat) : Values :=
  (rawParams query).foldl (fun m p => valuesAdd m p.1 p.2) []

/-- Go's byte-wise lexicographic string order (`sort.Strings`). -/
def bytesLe : List Nat → List Nat → Bool
  | [], _ => true
  | _ :: _, [] => false
  | x :: xs, y :: ys => if x < y then true else if y < x then false else bytesLe xs ys

/-- The order `bytesLe` as a relation, for `List.insertionSort`. -/
def bLe (a b : List Nat) : Prop := bytesLe a b = true

instance : DecidableRel bLe := fun a b => instDecidableEqBool (bytesLe a b) true

/-- `sort.Strings`: sort byte strings lexicographically. -/
def sortStrings (l : List (List Nat)) : List (List Nat) := List.insertionSort bLe l

/-- `url.Values.Encode`: emit `key=value` for every value of every key,
keys in sorted order, both sides query-escaped, joined with `&`. -/
def encodeValues (v : Values) : List Nat :=
  List.intercalate [38]
    ((sortStrings (v.map Prod.fst)).flatMap fun k =>
      (valuesGetAll v k).map fun val => queryEscape k ++ 61 :: queryEscape val)

/-- The parts of `*url.URL` this package reads or writes. -/
structure URL where
  scheme : List Nat
  host : List Nat
  path : List Nat
  rawQuery : List Nat
deriving DecidableEq

/-! ### The URL-based verifiers -/

/-- `App.VerifyAuthorizationURL` from `oauth.go`: take the `hmac` query
parameter, delete `hmac` and `signature`, re-encode the remaining
parameters, percent-decode that whole encoded string once, and verify
the message against the hex `hmac` value with `VerifyMessage`.  The
second component models the returned `error` (from `QueryUnescape`,
which yields the empty string alongside an error). -/
def VerifyAuthorizationURL (app : App) (u : URL) : Bool × Option Unit :=
  let q := parseQuery u.rawQuery
  let messageMAC := valuesGet q (strB "hmac")
  let q := valuesDel q (strB "hmac")
  let q := valuesDel q (strB "signature")
  match queryUnescape (encodeValues q) with
  | some message => (VerifyMessage app message messageMAC, none)
  | none => (VerifyMessage app [] messageMAC, some ())

/-- The helper `hmacSHA256` from `oauth.go`: hex-encode the computed
HMAC-SHA256 of `body` under `key` and compare it (`hmac.Equal`) with the
expected byte string. -/
def hmacSHA256 (key body expected : List Nat) : Bool :=
  let result := hmacSha256Digest key body
  let dst := hexEncode result
  hmacEqual dst expected

/-- `App.VerifySignature` from `oauth.go`: drop the `signature`
parameter, render every remaining key as `key=value` with multiple
values comma-joined, sort those strings, concatenate them with no
separator, and check the hex `signature` value over that message. -/
def VerifySignature (app : App) (u : URL) : Bool :=
  let val := parseQuery u.rawQuery
  let sig := valuesGet val (strB "signature")
  let val := valuesDel val (strB "signature")
  let keys := val.map fun p => p.1 ++ 61 :: List.intercalate [44] p.2
  let keys := sortStrings keys
  let joined := keys.flatten
  hmacSHA256 app.ApiSecret joined sig

/-! ### Spec-side canonicalization (for the refinement claims C5, C6) -/

/-- Spec §4.2 callback mode, written from the spec's words: remove
exactly the keys `hmac` and `signature`, URL-encode the remaining
parameters as a single query string with standard form encoding, then
percent-decode that entire encoded string once (Go reports no error
here, since an encoder output always unescapes; the spec's message is
the decoded string). -/
def specCallbackMessage (q : Values) : List Nat :=
  (queryUnescape (encodeValues (valuesDel (valuesDel q (strB "hmac")) (strB "signature")))).getD []

/-- Spec §4.2 proxy mode, written from the spec's words: remove exactly
`signature`; for each remaining key join its values with a literal
comma, format as `key=value`, sort all such strings lexicographically
and concatenate with no separator. -/
def specProxyMessage (q : Values) : List Nat :=
  (sortStrings
    ((valuesDel q (strB "signature")).map fun p => p.1 ++ 61 :: List.intercalate [44] p.2)).flatten

/-! ### Authorization URL construction -/

/-- Modelled from the spec: `ShopBaseUrl` lives outside the verified
source file; per §2/§6 the shop name resolves to the platform base URL
`https://{shop}.myshopify.com`. -/
def ShopBaseUrl (shopName : List Nat) : List Nat :=
  strB "https://" ++ shopName ++ strB ".myshopify.com"

/-- Whether a byte may sit in a URL host unescaped here (letters, digits,
`-`, `.`); the shop names this package builds URLs for stay inside this
set (spec §4.3 assumes basic shop-name shape is validated upstream). -/
def isHostByte (c : Nat) : Bool :=
  inRange 48 57 c || inRange 65 90 c || inRange 97 122 c || c == 45 || c == 46

/-- Model of `url.Parse` restricted to the `https://host[/path][?query]`
shapes `ShopBaseUrl` produces (the only call site): byte 8 onward up to
the first `/` or `?` is the host, then the path up to `?`, then the raw
query. -/
def goUrlParse (s : List Nat) : URL :=
  let rest := s.drop 8
  let host := rest.takeWhile fun c => c != 47 && c != 63
  let tail := rest.drop host.length
  let path := tail.takeWhile fun c => c != 63
  let rawQuery := (tail.drop path.length).drop 1
  ⟨strB "https", host, path, rawQuery⟩

/-- Whether a byte passes `url.URL.String`'s path escaping unchanged
(Go `shouldEscape` in `encodePath` mode). -/
def isPathByte (c : Nat) : Bool :=
  inRange 48 57 c || inRange 65 90 c || inRange 97 122 c ||
    c == 45 || c == 95 || c == 46 || c == 126 ||
    c == 36 || c == 38 || c == 43 || c == 44 || c == 47 || c == 58 || c == 59 || c == 61 || c == 64

/-- Path escaping performed by `url.URL.String` (`EscapedPath`). -/
def pathEscape (s : List Nat) : List Nat :=
  s.flatMap fun c =>
    if isPathByte c then [c] else [37, hexDigitU (c / 16), hexDigitU (c % 16)]

/-- `url.URL.String` for the URLs built here: scheme, `//host`, escaped
path, and the raw query after `?` when present.  (Host escaping is the
identity on the host bytes this package produces.) -/
def urlString (u : URL) : List Nat :=
  u.scheme ++ 58 :: 47 :: 47 :: u.host ++ pathEscape u.path ++
    (if u.rawQuery = [] then [] else 63 :: u.rawQuery)

/-- `App.AuthorizeUrl` from `oauth.go`: parse the shop base URL, set the
OAuth authorize path, set the four query parameters, re-encode the
query, and render the URL. -/
def AuthorizeUrl (app : App) (shopName state : List Nat) : List Nat :=
  let shopUrl := goUrlParse (ShopBaseUrl shopName)
  let shopUrl := { shopUrl with path := strB "/admin/oauth/authorize" }
  let query := parseQuery shopUrl.rawQuery
  let query := valuesSet query (strB "client_id") app.ApiKey
  let query := valuesSet query (strB "redirect_uri") app.RedirectUrl
  let query := valuesSet query (strB "scope") app.Scope
  let query := valuesSet query (strB "state") state
  let shopUrl := { shopUrl with rawQuery := encodeValues query }
  urlString shopUrl

/-- The exact four query bindings the spec requires of the authorize URL
(spec §4.3): `client_id`, `redirect_uri`, `scope`, `state`, each present
even when its value is empty, bound to the app's API key, redirect URL,
scope, and the caller's state. -/
def authQuery (app : App) (state : List Nat) : Values :=
  [(strB "client_id", [app.ApiKey]), (strB "redirect_uri", [app.RedirectUrl]),
   (strB "scope", [app.Scope]), (strB "state", [state])]

/-! ### Concrete instances used by witnesses and counterexamples -/

/-- A concrete app with a non-empty secret. -/
def appW : App := ⟨strB "k1", strB "hush", strB "https://app.example/cb", strB "read_products"⟩

/-- A concrete app whose API secret is empty. -/
def appE : App := ⟨strB "k1", strB "", strB "https://app.example/cb", strB "read_products"⟩

/-- A concrete app with secret `sk`. -/
def appSk : App := ⟨strB "k1", strB "sk", strB "https://app.example/cb", strB "read_products"⟩

/-- A concrete app with secret `sec`. -/
def appSec : App := ⟨strB "k1", strB "sec", strB "https://app.example/cb", strB "read_products"⟩

/-! ## Helper lemmas -/

theorem hmacEqual_iff {a b : List Nat} : hmacEqual a b = true ↔ a = b := by
  simp [hmacEqual]

theorem wbytes_lt (w : Nat) : ∀ b ∈ wbytes w, b < 256 := by
  simp only [wbytes, List.mem_cons, List.not_mem_nil, or_false]
  omega

theorem digestBytes_length (s : H8) : (digestBytes s).length = 32 := by
  simp [digestBytes, wbytes]

theorem sha256_length (m : List Nat) : (sha256 m).length = 32 := digestBytes_length _

theorem sha256_ne_nil (m : List Nat) : sha256 m ≠ [] := by
  intro h
  have := sha256_length m
  rw [h] at this
  simp at this

theorem hmac_length (k m : List Nat) : (hmacSha256Digest k m).length = 32 := by
  unfold hmacSha256Digest
  exact sha256_length _

theorem hmac_ne_nil (k m : List Nat) : hmacSha256Digest k m ≠ [] := by
  unfold hmacSha256Digest
  exact sha256_ne_nil _

theorem sha256_lt (m : List Nat) : ∀ b ∈ sha256 m, b < 256 := by
  intro b hb
  simp only [sha256, digestBytes, List.mem_append] at hb
  rcases hb with ((((((h | h) | h) | h) | h) | h) | h) | h <;> exact wbytes_lt _ _ h

theorem hmac_lt (k m : List Nat) : ∀ b ∈ hmacSha256Digest k m, b < 256 := by
  unfold hmacSha256Digest
  exact sha256_lt _

theorem b64Char_ge (i : Nat) : 43 ≤ b64Char i := by
  unfold b64Char
  split_ifs <;> omega

theorem b64Char_ne_pad (i : Nat) : b64Char i ≠ 61 := by
  unfold b64Char
  split_ifs <;> omega

theorem b64Index_b64Char : ∀ i < 64, b64Index (b64Char i) = some i := by decide

theorem b64Encode_cons_ne_nil (x : Nat) (xs : List Nat) : b64Encode (x :: xs) ≠ [] := by
  match xs with
  | [] => simp [b64Encode]
  | [b] => simp [b64Encode]
  | b :: c :: rest => simp [b64Encode]

theorem b64Encode_ne_nil {l : List Nat} (h : l ≠ []) : b64Encode l ≠ [] := by
  match l, h with
  | x :: xs, _ => exact b64Encode_cons_ne_nil x xs

theorem mem_b64Encode {c : Nat} : ∀ {l : List Nat}, c ∈ b64Encode l → 43 ≤ c
  | [], h => by simp [b64Encode] at h
  | [a], h => by
    simp only [b64Encode, List.mem_cons, List.not_mem_nil, or_false] at h
    rcases h with h | h | h | h <;> subst h <;> first | exact b64Char_ge _ | omega
  | [a, b], h => by
    simp only [b64Encode, List.mem_cons, List.not_mem_nil, or_false] at h
    rcases h with h | h | h | h <;> subst h <;> first | exact b64Char_ge _ | omega
  | a :: b :: c' :: rest, h => by
    simp only [b64Encode, List.mem_cons] at h
    rcases h with h | h | h | h | h
    · subst h; exact b64Char_ge _
    · subst h; exact b64Char_ge _
    · subst h; exact b64Char_ge _
    · subst h; exact b64Char_ge _
    · exact mem_b64Encode h

theorem b64Encode_filter (l : List Nat) :
    (b64Encode l).filter (fun c => c != 13 && c != 10) = b64Encode l := by
  apply List.filter_eq_self.mpr
  intro a ha
  have := mem_b64Encode ha
  simp only [bne_iff_ne, ne_eq, Bool.and_eq_true, decide_eq_true_eq]
  omega

theorem b64DecodeQ_encode : ∀ l : List Nat, (∀ b ∈ l, b < 256) → b64DecodeQ (b64Encode l) = some l
  | [], _ => rfl
  | [a], h => by
    have ha : a < 256 := h a (by simp)
    have i0 := b64Index_b64Char (a / 4) (by omega)
    have i1 := b64Index_b64Char (a % 4 * 16) (by omega)
    simp only [b64Encode, b64DecodeQ, i0, i1, if_pos, Option.some.injEq, List.cons.injEq,
      and_true]
    omega
  | [a, b], h => by
    have ha : a < 256 := h a (by simp)
    have hb : b < 256 := h b (by simp)
    have i0 := b64Index_b64Char (a / 4) (by omega)
    have i1 := b64Index_b64Char (a % 4 * 16 + b / 16) (by omega)
    have i2 := b64Index_b64Char (b % 16 * 4) (by omega)
    simp only [b64Encode, b64DecodeQ, i0, i1, i2, b64Char_ne_pad, if_false, if_pos,
      Option.some.injEq, List.cons.injEq, and_true]
    omega
  | a :: b :: c :: rest, h => by
    have ha : a < 256 := h a (by simp)
    have hb : b < 256 := h b (by simp)
    have hc : c < 256 := h c (by simp)
    have hrest : ∀ x ∈ rest, x < 256 := fun x hx => h x (by simp [hx])
    have ih := b64DecodeQ_encode rest hrest
    have i0 := b64Index_b64Char (a / 4) (by omega)
    have i1 := b64Index_b64Char (a % 4 * 16 + b / 16) (by omega)
    have i2 := b64Index_b64Char (b % 16 * 4 + c / 64) (by omega)
    have i3 := b64Index_b64Char (c % 64) (by omega)
    match rest with
    | [] =>
      simp only [b64Encode, b64DecodeQ, i0, i1, i2, i3, b64Char_ne_pad, if_false,
        Option.some.injEq, List.cons.injEq, and_true]
      omega
    | r :: rs =>
      obtain ⟨t, ts, ht⟩ := List.exists_cons_of_ne_nil (b64Encode_cons_ne_nil r rs)
      simp only [b64Encode] at ht ⊢
      rw [ht]
      simp only [b64DecodeQ, i0, i1, i2, i3, ← ht, ih, Option.map_some', Option.some.injEq,
        List.cons_append, List.nil_append, List.cons.injEq, and_true, true_and]
      omega

theorem b64Decode_encode (l : List Nat) (h : ∀ b ∈ l, b < 256) :
    b64Decode (b64Encode l) = some l := by
  rw [b64Decode, b64Encode_filter]
  exact b64DecodeQ_encode l h

/-! ### Sanity anchors: the embedded primitives on published test vectors -/

example : sha256 (strB "abc") =
    [186, 120, 22, 191, 143, 1, 207, 234, 65, 65, 64, 222,
     93, 174, 34, 35, 176, 3, 97, 163, 150, 23, 122, 156,
     180, 16, 255, 97, 242, 0, 21, 173] := by decide

example : hmacSha256Digest (strB "key") (strB "The quick brown fox jumps over the lazy dog") =
    [247, 188, 131, 244, 48, 83, 132, 36, 177, 50, 152, 230,
     170, 111, 177, 67, 239, 77, 89, 161, 73, 70, 23, 89,
     151, 71, 157, 188, 45, 26, 60, 216] := by decide

example : b64Encode (strB "any carnal pleasure.") = strB "YW55IGNhcm5hbCBwbGVhc3VyZS4=" := by
  decide

example : hexEncode [0, 255, 16] = strB "00ff10" := by decide

/-! ## Claim C1 -/

/-- C1 counterexample: the received signature below is NOT valid hex
(`hexDecodeLoop` reports an error on the trailing `zz`), yet
`VerifyMessage` returns `true`, because Go's `hex.DecodeString` hands
back the 32 bytes it decoded before the failure and they match the
expected MAC of `hello` under secret `sk`.  The claim that a decode
failure always yields `false` is therefore wrong on this code. -/
theorem verifyMessage_partial_hex_accepts :
    (hexDecodeLoop
      (strB "c62e24cdbb840436caa9b99d7b46abbc8bd0a5929f870ecfe6a61689641b0a51zz")).2 = true ∧
    VerifyMessage appSk (strB "hello")
      (strB "c62e24cdbb840436caa9b99d7b46abbc8bd0a5929f870ecfe6a61689641b0a51zz") = true := by
  constructor <;> decide

/-- C1 amended: when the hex decode of the received signature fails,
`VerifyMessage` compares the prefix decoded before the failure against
the expected MAC — it returns `true` exactly when that prefix equals the
32-byte expected MAC, and in particular returns `false` whenever the
prefix does not have exactly 32 bytes. -/
theorem verifyMessage_decode_failure_compare (app : App) (message messageMAC : List Nat)
    (h : (hexDecodeLoop messageMAC).2 = true) :
    (VerifyMessage app message messageMAC = true ↔
      (hexDecodeLoop messageMAC).1 = hmacSha256Digest app.ApiSecret message) ∧
    ((hexDecodeLoop messageMAC).1.length ≠ 32 → VerifyMessage app message messageMAC = false) := by
  constructor
  · unfold VerifyMessage
    exact hmacEqual_iff
  · intro hl
    unfold VerifyMessage
    simp only [hmacEqual, beq_eq_false_iff_ne, ne_eq]
    intro he
    apply hl
    rw [he]
    exact hmac_length _ _

/-- C1 amended claim witness at a concrete input: a signature that is
not hex at all decodes to the empty prefix, so verification fails. -/
theorem verifyMessage_decode_failure_compare_witness :
    (hexDecodeLoop (strB "zz")).2 = true ∧
    VerifyMessage appSk (strB "hello") (strB "zz") = false :=
  ⟨by decide,
    (verifyMessage_decode_failure_compare appSk (strB "hello") (strB "zz") (by decide)).2
      (by decide)⟩

/-! ## Claim C2 -/

/-- C2 counterexample: the body-replay guarantee fails on two paths.
First, when the body read errors out, `VerifyWebhookRequestVerbose`
returns before restoring the body (the restore in the source sits after
the error return), so the downstream read yields no bytes and the error
again, not the original byte `49`.  Second, the restored body is a
one-shot buffer, so reading it twice after a `VerifyWebhookRequest`
call yields the original bytes only once — the second read is empty,
refuting "any number of times". -/
theorem webhook_body_replay_counterexample :
    (readAll (VerifyWebhookRequestVerbose appW
      ⟨strB "AAAAAAAAAAAAAAAAAAAAAAAAAAAAAAAAAAAAAAAAAAA=", ⟨[49], true⟩⟩).2.body).1 =
        ([], true) ∧
    (readAll (readAll (VerifyWebhookRequest appW
      ⟨[], ⟨[49, 50], false⟩⟩).2.body).2).1 = ([], false) := by
  constructor <;> decide

/-- C2 amended: for every request whose body read succeeds, both
verifiers leave the request with a fresh readable buffer of exactly the
original body bytes on every exit path, so the next full downstream
read yields exactly the original bytes (one replay per verifier call;
re-reading without restoring again yields nothing, and on a read error
the verbose variant returns without restoring). -/
theorem webhook_body_restored (app : App) (r : Request) (h : r.body.readErr = false) :
    (VerifyWebhookRequest app r).2 = r ∧
    (VerifyWebhookRequestVerbose app r).2 = r ∧
    (readAll (VerifyWebhookRequest app r).2.body).1 = (r.body.avail, false) ∧
    (readAll (VerifyWebhookRequestVerbose app r).2.body).1 = (r.body.avail, false) := by
  obtain ⟨hdr, avail, re⟩ := r
  simp only at h
  subst re
  have hs : (VerifyWebhookRequest app ⟨hdr, avail, false⟩).2 = ⟨hdr, avail, false⟩ := by
    simp [VerifyWebhookRequest, readAll]
  have hv : (VerifyWebhookRequestVerbose app ⟨hdr, avail, false⟩).2 = ⟨hdr, avail, false⟩ := by
    unfold VerifyWebhookRequestVerbose
    split
    · rfl
    · dsimp only [readAll]
      split
      · rfl
      · split
        · rfl
        · split
          · rfl
          · split
            · simp_all
            · split
              · rfl
              · split <;> rfl
  refine ⟨hs, hv, ?_, ?_⟩
  · rw [hs]
    rfl
  · rw [hv]
    rfl

/-- C2 amended claim witness at a concrete request. -/
theorem webhook_body_restored_witness :
    (VerifyWebhookRequest appW ⟨[], ⟨[49, 50], false⟩⟩).2 = ⟨[], ⟨[49, 50], false⟩⟩ ∧
    (readAll (VerifyWebhookRequestVerbose appW ⟨[], ⟨[49, 50], false⟩⟩).2.body).1 =
      ([49, 50], false) :=
  ⟨(webhook_body_restored appW ⟨[], ⟨[49, 50], false⟩⟩ (by decide)).1,
   (webhook_body_restored appW ⟨[], ⟨[49, 50], false⟩⟩ (by decide)).2.2.2⟩

/-! ## Claim C3 -/

/-- C3: `VerifyWebhookRequestVerbose` distinguishes its failure causes by
checking preconditions in source order — empty secret, then missing or
empty header, then a header that fails to base64-decode (the bare decode
error), then a successfully decoded header of length other than 32
(reported with that length — so a 31-byte signature gets the length
error, not a mismatch), then a body read failure, then an empty body;
only a well-formed 32-byte signature differing from the computed digest
yields the mismatch error carrying both digests hex-encoded. -/
theorem verbose_failure_cause_order (app : App) (r : Request) :
    (app.ApiSecret = [] →
      (VerifyWebhookRequestVerbose app r).1 = (false, some .apiSecretEmpty)) ∧
    (app.ApiSecret ≠ [] → r.hmacHeader = [] →
      (VerifyWebhookRequestVerbose app r).1 = (false, some .headerNotSet)) ∧
    (app.ApiSecret ≠ [] → r.hmacHeader ≠ [] → b64Decode r.hmacHeader = none →
      (VerifyWebhookRequestVerbose app r).1 = (false, some .base64DecodeError)) ∧
    (∀ d, app.ApiSecret ≠ [] → r.hmacHeader ≠ [] → b64Decode r.hmacHeader = some d →
      d.length ≠ 32 →
      (VerifyWebhookRequestVerbose app r).1 = (false, some (.wrongLength d.length))) ∧
    (∀ d, app.ApiSecret ≠ [] → r.hmacHeader ≠ [] → b64Decode r.hmacHeader = some d →
      d.length = 32 → r.body.readErr = true →
      (VerifyWebhookRequestVerbose app r).1 = (false, some .readError)) ∧
    (∀ d, app.ApiSecret ≠ [] → r.hmacHeader ≠ [] → b64Decode r.hmacHeader = some d →
      d.length = 32 → r.body.readErr = false → r.body.avail = [] →
      (VerifyWebhookRequestVerbose app r).1 = (false, some .bodyEmpty)) ∧
    (∀ d, app.ApiSecret ≠ [] → r.hmacHeader ≠ [] → b64Decode r.hmacHeader = some d →
      d.length = 32 → r.body.readErr = false → r.body.avail ≠ [] →
      d ≠ hmacSha256Digest app.ApiSecret r.body.avail →
      (VerifyWebhookRequestVerbose app r).1 =
        (false, some (.mismatch (hexEncode (hmacSha256Digest app.ApiSecret r.body.avail))
          (hexEncode d)))) ∧
    (∀ d, app.ApiSecret ≠ [] → r.hmacHeader ≠ [] → b64Decode r.hmacHeader = some d →
      d.length = 32 → r.body.readErr = false → r.body.avail ≠ [] →
      d = hmacSha256Digest app.ApiSecret r.body.avail →
      (VerifyWebhookRequestVerbose app r).1 = (true, none)) := by
  obtain ⟨hdr, avail, re⟩ := r
  refine ⟨?_, ?_, ?_, ?_, ?_, ?_, ?_, ?_⟩
  · intro h1
    simp [VerifyWebhookRequestVerbose, h1]
  · intro h1 h2
    simp only at h2
    simp [VerifyWebhookRequestVerbose, h1, h2]
  · intro h1 h2 h3
    simp only at h2 h3
    simp [VerifyWebhookRequestVerbose, h1, h2, h3]
  · intro d h1 h2 h3 h4
    simp only at h2 h3
    simp [VerifyWebhookRequestVerbose, h1, h2, h3, h4]
  · intro d h1 h2 h3 h4 h5
    simp only at h2 h3 h5
    subst h5
    simp [VerifyWebhookRequestVerbose, readAll, h1, h2, h3, h4]
  · intro d h1 h2 h3 h4 h5 h6
    simp only at h2 h3 h5 h6
    subst h5
    subst h6
    simp [VerifyWebhookRequestVerbose, readAll, h1, h2, h3, h4]
  · intro d h1 h2 h3 h4 h5 h6 h7
    simp only at h2 h3 h5 h6 h7
    subst h5
    simp [VerifyWebhookRequestVerbose, readAll, hmacEqual, h1, h2, h3, h4, h6, h7,
      List.length_eq_zero]
  · intro d h1 h2 h3 h4 h5 h6 h7
    simp only at h2 h3 h5 h6 h7
    subst h5
    subst h7
    simp [VerifyWebhookRequestVerbose, readAll, hmacEqual, h1, h2, h3, hmac_length, h6,
      List.length_eq_zero]

/-- C3 witness: a header decoding to 31 bytes yields the length error
(not a mismatch), reported with the decoded length 31. -/
theorem verbose_failure_cause_order_witness :
    (VerifyWebhookRequestVerbose appW
      ⟨strB "AAAAAAAAAAAAAAAAAAAAAAAAAAAAAAAAAAAAAAAAAA==", ⟨strB "payload", false⟩⟩).1 =
      (false, some (WebhookError.wrongLength 31)) := by
  have h := (verbose_failure_cause_order appW
    ⟨strB "AAAAAAAAAAAAAAAAAAAAAAAAAAAAAAAAAAAAAAAAAA==", ⟨strB "payload", false⟩⟩).2.2.2.1
    (List.replicate 31 0) (by decide) (by decide) (by decide) (by decide)
  simpa using h

/-! ## Claim C10 -/

/-- C10: the silent `VerifyWebhookRequest` enforces none of the verbose
variant's preconditions — an empty `ApiSecret` is simply used as the
empty HMAC key, an absent header is compared as the empty string (and so
fails against the always non-empty base64 digest), and an empty body is
accepted: a request with empty body and header
`base64(HMAC-SHA256(secret, ""))` verifies, while the verbose variant
reports an error for that same request. -/
theorem silent_skips_preconditions (app : App) (B : List Nat) :
    (app.ApiSecret = [] →
      (VerifyWebhookRequest app ⟨b64Encode (hmacSha256Digest [] B), ⟨B, false⟩⟩).1 = true) ∧
    (VerifyWebhookRequest app ⟨[], ⟨B, false⟩⟩).1 = false ∧
    (VerifyWebhookRequest app
      ⟨b64Encode (hmacSha256Digest app.ApiSecret []), ⟨[], false⟩⟩).1 = true ∧
    ((VerifyWebhookRequestVerbose app
      ⟨b64Encode (hmacSha256Digest app.ApiSecret []), ⟨[], false⟩⟩).1.2).isSome = true := by
  refine ⟨?_, ?_, ?_, ?_⟩
  · intro h1
    simp [VerifyWebhookRequest, readAll, hmacEqual, h1]
  · obtain ⟨t, ts, ht⟩ :=
      List.exists_cons_of_ne_nil (b64Encode_ne_nil (hmac_ne_nil app.ApiSecret B))
    simp [VerifyWebhookRequest, readAll, hmacEqual, ht]
  · simp [VerifyWebhookRequest, readAll, hmacEqual]
  · by_cases h1 : app.ApiSecret = []
    · simp [VerifyWebhookRequestVerbose, h1]
    · have hd := b64Decode_encode _ (hmac_lt app.ApiSecret [])
      have hl := hmac_length app.ApiSecret []
      have hne := b64Encode_ne_nil (hmac_ne_nil app.ApiSecret [])
      simp [VerifyWebhookRequestVerbose, readAll, h1, hd, hl, hne]

/-- C10 witness at concrete inputs: the empty-secret app accepts the
matching header over body `body`; the missing header fails; the empty
body verifies silently while the verbose variant reports an error. -/
theorem silent_skips_preconditions_witness :
    appE.ApiSecret = [] ∧
    (VerifyWebhookRequest appE
      ⟨b64Encode (hmacSha256Digest [] (strB "body")), ⟨strB "body", false⟩⟩).1 = true ∧
    (VerifyWebhookRequest appW ⟨[], ⟨strB "body", false⟩⟩).1 = false ∧
    (VerifyWebhookRequest appW
      ⟨b64Encode (hmacSha256Digest appW.ApiSecret []), ⟨[], false⟩⟩).1 = true ∧
    ((VerifyWebhookRequestVerbose appW
      ⟨b64Encode (hmacSha256Digest appW.ApiSecret []), ⟨[], false⟩⟩).1.2).isSome = true :=
  ⟨by decide,
   (silent_skips_preconditions appE (strB "body")).1 (by decide),
   (silent_skips_preconditions appW (strB "body")).2.1,
   (silent_skips_preconditions appW (strB "body")).2.2.1,
   (silent_skips_preconditions appW (strB "body")).2.2.2⟩

/-! ## Claims C5 and C6: the two canonicalizations -/

/-- Shared refinement fact: the callback verifier's verdict is the
`VerifyMessage` check of the spec's callback-mode message against the
`hmac` query parameter. -/
theorem verifyAuthorizationURL_eq (app : App) (u : URL) :
    (VerifyAuthorizationURL app u).1 =
      VerifyMessage app (specCallbackMessage (parseQuery u.rawQuery))
        (valuesGet (parseQuery u.rawQuery) (strB "hmac")) := by
  unfold VerifyAuthorizationURL specCallbackMessage
  cases h : queryUnescape
      (encodeValues
        (valuesDel (valuesDel (parseQuery u.rawQuery) (strB "hmac")) (strB "signature"))) <;>
    simp [h]

/-- Shared refinement fact: the proxy verifier's verdict is the hex
signature check of the spec's proxy-mode message against the
`signature` query parameter. -/
theorem verifySignature_eq (app : App) (u : URL) :
    VerifySignature app u =
      hmacSHA256 app.ApiSecret (specProxyMessage (parseQuery u.rawQuery))
        (valuesGet (parseQuery u.rawQuery) (strB "signature")) := rfl

/-- C5: `VerifyAuthorizationURL` signs exactly the spec's callback-mode
message — the query parameters minus exactly `hmac` and `signature`,
form-encoded to a single query string and percent-decoded once — and
verifies the hex `hmac` query parameter as an HMAC-SHA256 of that
message under the app secret (via `VerifyMessage`). -/
theorem verifyAuthorizationURL_canonicalization (app : App) (u : URL) :
    (VerifyAuthorizationURL app u).1 =
      VerifyMessage app (specCallbackMessage (parseQuery u.rawQuery))
        (valuesGet (parseQuery u.rawQuery) (strB "hmac")) :=
  verifyAuthorizationURL_eq app u

/-- C6: `VerifySignature` signs exactly the spec's proxy-mode message —
the query parameters minus exactly `signature`, each remaining key
rendered as `key=value` with multiple values joined by a literal comma,
sorted lexicographically and concatenated with no separator — and
verifies the hex `signature` query parameter as an HMAC-SHA256 of that
message under the app secret. -/
theorem verifySignature_canonicalization (app : App) (u : URL) :
    VerifySignature app u =
      hmacSHA256 app.ApiSecret (specProxyMessage (parseQuery u.rawQuery))
        (valuesGet (parseQuery u.rawQuery) (strB "signature")) :=
  verifySignature_eq app u

/-! ## Order properties of the byte-string sort (for claim C7) -/

theorem bytesLe_total : ∀ a b : List Nat, bytesLe a b = true ∨ bytesLe b a = true
  | [], _ => by left; cases ‹List Nat› <;> rfl
  | _ :: _, [] => Or.inr rfl
  | x :: xs, y :: ys => by
    rcases Nat.lt_trichotomy x y with h | h | h
    · left
      simp [bytesLe, h]
    · subst h
      rcases bytesLe_total xs ys with ih | ih
      · left
        simp [bytesLe, ih]
      · right
        simp [bytesLe, ih]
    · right
      simp [bytesLe, h]

theorem bytesLe_trans :
    ∀ a b c : List Nat, bytesLe a b = true → bytesLe b c = true → bytesLe a c = true
  | [], _, c, _, _ => by cases c <;> rfl
  | _ :: _, [], _, hab, _ => by simp [bytesLe] at hab
  | _ :: _, _ :: _, [], _, hbc => by simp [bytesLe] at hbc
  | x :: xs, y :: ys, z :: zs, hab, hbc => by
    simp only [bytesLe] at hab hbc ⊢
    rcases Nat.lt_trichotomy x y with h1 | h1 | h1
    · rcases Nat.lt_trichotomy y z with h2 | h2 | h2
      · simp [show x < z by omega]
      · subst h2
        simp [h1]
      · rw [if_neg (by omega), if_pos h2] at hbc
        exact absurd hbc (by simp)
    · subst h1
      rw [if_neg (by omega), if_neg (by omega)] at hab
      rcases Nat.lt_trichotomy x z with h2 | h2 | h2
      · simp [h2]
      · subst h2
        rw [if_neg (by omega), if_neg (by omega)] at hbc ⊢
        exact bytesLe_trans xs ys zs hab hbc
      · rw [if_neg (by omega), if_pos h2] at hbc
        exact absurd hbc (by simp)
    · rw [if_neg (by omega), if_pos h1] at hab
      exact absurd hab (by simp)

theorem bytesLe_antisymm :
    ∀ a b : List Nat, bytesLe a b = true → bytesLe b a = true → a = b
  | [], [], _, _ => rfl
  | [], _ :: _, _, hba => by simp [bytesLe] at hba
  | _ :: _, [], hab, _ => by simp [bytesLe] at hab
  | x :: xs, y :: ys, hab, hba => by
    simp only [bytesLe] at hab hba
    rcases Nat.lt_trichotomy x y with h | h | h
    · rw [if_neg (by omega), if_pos h] at hba
      exact absurd hba (by simp)
    · subst h
      rw [if_neg (by omega), if_neg (by omega)] at hab hba
      rw [bytesLe_antisymm xs ys hab hba]
    · rw [if_neg (by omega), if_pos h] at hab
      exact absurd hab (by simp)

instance : IsTotal (List Nat) bLe := ⟨fun a b => bytesLe_total a b⟩

instance : IsTrans (List Nat) bLe := ⟨fun a b c => bytesLe_trans a b c⟩

instance : IsAntisymm (List Nat) bLe := ⟨fun a b => bytesLe_antisymm a b⟩

theorem sortStrings_perm_eq {l₁ l₂ : List (List Nat)} (h : List.Perm l₁ l₂) :
    sortStrings l₁ = sortStrings l₂ :=
  List.eq_of_perm_of_sorted
    (((List.perm_insertionSort bLe l₁).trans h).trans (List.perm_insertionSort bLe l₂).symm)
    (List.sorted_insertionSort bLe l₁) (List.sorted_insertionSort bLe l₂)

/-! ## Association-list lemmas for `Values` (for claims C7, C8) -/

theorem valuesGetAll_cons_eq {p : List Nat × List (List Nat)} {v : Values} {k : List Nat}
    (h : p.1 = k) : valuesGetAll (p :: v) k = p.2 := by
  simp [valuesGetAll, List.find?_cons, h]

theorem valuesGetAll_cons_ne {p : List Nat × List (List Nat)} {v : Values} {k : List Nat}
    (h : p.1 ≠ k) : valuesGetAll (p :: v) k = valuesGetAll v k := by
  simp [valuesGetAll, List.find?_cons, h]

theorem valuesGetAll_del (v : Values) (k kq : List Nat) :
    valuesGetAll (valuesDel v k) kq = if kq = k then [] else valuesGetAll v kq := by
  induction v with
  | nil => simp [valuesGetAll, valuesDel]
  | cons p rest ih =>
    by_cases hp : p.1 = k
    · have : valuesDel (p :: rest) k = valuesDel rest k := by
        simp [valuesDel, List.filter_cons, hp]
      rw [this, ih]
      by_cases hk : kq = k
      · simp [hk]
      · rw [if_neg hk, if_neg hk, valuesGetAll_cons_ne (fun h => hk (h.symm.trans hp))]
    · have : valuesDel (p :: rest) k = p :: valuesDel rest k := by
        simp [valuesDel, List.filter_cons, hp]
      rw [this]
      by_cases hq : p.1 = kq
      · rw [valuesGetAll_cons_eq hq, if_neg (fun h => hp (hq.trans h)),
          valuesGetAll_cons_eq hq]
      · rw [valuesGetAll_cons_ne hq, valuesGetAll_cons_ne hq, ih]

theorem valuesDel_keys_sublist (v : Values) (k : List Nat) :
    List.Sublist ((valuesDel v k).map Prod.fst) (v.map Prod.fst) :=
  (List.filter_sublist v).map Prod.fst

theorem valuesDel_nodupKeys {v : Values} (h : (v.map Prod.fst).Nodup) (k : List Nat) :
    ((valuesDel v k).map Prod.fst).Nodup :=
  h.sublist (valuesDel_keys_sublist v k)

theorem valuesDel_valsNE {v : Values} (h : ∀ p ∈ v, p.2 ≠ []) (k : List Nat) :
    ∀ p ∈ valuesDel v k, p.2 ≠ [] :=
  fun p hp => h p (List.mem_of_mem_filter hp)

theorem valuesAdd_keys (v : Values) (k val : List Nat) :
    (valuesAdd v k val).map Prod.fst =
      if k ∈ v.map Prod.fst then v.map Prod.fst else v.map Prod.fst ++ [k] := by
  induction v with
  | nil => simp [valuesAdd]
  | cons p rest ih =>
    by_cases hp : p.1 = k
    · simp [valuesAdd, hp]
    · have hbp : (p.1 == k) = false := by simp [hp]
      simp only [valuesAdd, hbp, Bool.false_eq_true, if_false, List.map_cons, ih,
        List.mem_cons]
      have hkp : ¬ k = p.1 := fun h => hp h.symm
      by_cases hmem : k ∈ rest.map Prod.fst
      · simp [hmem, hkp]
      · simp [hmem, hkp]

theorem valuesAdd_nodupKeys {v : Values} (h : (v.map Prod.fst).Nodup) (k val : List Nat) :
    ((valuesAdd v k val).map Prod.fst).Nodup := by
  rw [valuesAdd_keys]
  by_cases hmem : k ∈ v.map Prod.fst
  · simpa [hmem] using h
  · simp [hmem, List.nodup_append, h]

theorem valuesAdd_valsNE {v : Values} (h : ∀ p ∈ v, p.2 ≠ []) (k val : List Nat) :
    ∀ p ∈ valuesAdd v k val, p.2 ≠ [] := by
  induction v with
  | nil =>
    intro p hp
    simp [valuesAdd] at hp
    simp [hp]
  | cons q rest ih =>
    intro p hp
    by_cases hq : q.1 == k
    · simp only [valuesAdd, if_pos hq, List.mem_cons] at hp
      rcases hp with hp | hp
      · simp [hp]
      · exact h p (by simp [hp])
    · simp only [valuesAdd, if_neg hq, List.mem_cons] at hp
      rcases hp with hp | hp
      · exact h p (by simp [hp])
      · exact ih (fun r hr => h r (by simp [hr])) p hp

theorem parseQuery_invariants (q : List Nat) :
    ((parseQuery q).map Prod.fst).Nodup ∧ ∀ p ∈ parseQuery q, p.2 ≠ [] := by
  unfold parseQuery
  generalize rawParams q = ps
  suffices h : ∀ (m : Values), (m.map Prod.fst).Nodup → (∀ p ∈ m, p.2 ≠ []) →
      ((ps.foldl (fun m p => valuesAdd m p.1 p.2) m).map Prod.fst).Nodup ∧
        ∀ p ∈ ps.foldl (fun m p => valuesAdd m p.1 p.2) m, p.2 ≠ [] by
    exact h [] (by simp) (by simp)
  induction ps with
  | nil => exact fun m h1 h2 => ⟨h1, h2⟩
  | cons p rest ih =>
    intro m h1 h2
    exact ih _ (valuesAdd_nodupKeys h1 _ _) (valuesAdd_valsNE h2 _ _)

theorem mem_keys_iff_getAll {v : Values} (hne : ∀ p ∈ v, p.2 ≠ []) (k : List Nat) :
    k ∈ v.map Prod.fst ↔ valuesGetAll v k ≠ [] := by
  induction v with
  | nil => simp [valuesGetAll]
  | cons p rest ih =>
    by_cases hp : p.1 = k
    · rw [valuesGetAll_cons_eq hp]
      simp only [List.map_cons, List.mem_cons]
      exact ⟨fun _ => hne p (by simp), fun _ => Or.inl hp.symm⟩
    · rw [valuesGetAll_cons_ne hp, List.map_cons, List.mem_cons]
      rw [ih (fun r hr => hne r (by simp [hr]))]
      exact ⟨fun h => h.elim (fun h2 => absurd h2.symm hp) id, Or.inr⟩

theorem map_entries_eq {α : Type} (v : Values) (h : (v.map Prod.fst).Nodup)
    (f : List Nat → List (List Nat) → α) :
    v.map (fun p => f p.1 p.2) = (v.map Prod.fst).map (fun k => f k (valuesGetAll v k)) := by
  induction v with
  | nil => rfl
  | cons p rest ih =>
    rw [List.map_cons, List.nodup_cons] at h
    simp only [List.map_cons]
    congr 1
    · rw [valuesGetAll_cons_eq rfl]
    · rw [ih h.2]
      apply List.map_congr_left
      intro k hk
      rw [valuesGetAll_cons_ne (fun he => h.1 (he ▸ hk))]

theorem encodeValues_congr {v₁ v₂ : Values}
    (h₁ : (v₁.map Prod.fst).Nodup) (h₂ : (v₂.map Prod.fst).Nodup)
    (hne₁ : ∀ p ∈ v₁, p.2 ≠ []) (hne₂ : ∀ p ∈ v₂, p.2 ≠ [])
    (hq : ∀ k, valuesGetAll v₁ k = valuesGetAll v₂ k) :
    encodeValues v₁ = encodeValues v₂ := by
  have hperm : List.Perm (v₁.map Prod.fst) (v₂.map Prod.fst) :=
    (List.perm_ext_iff_of_nodup h₁ h₂).mpr fun k => by
      rw [mem_keys_iff_getAll hne₁, mem_keys_iff_getAll hne₂, hq k]
  have hfun : valuesGetAll v₁ = valuesGetAll v₂ := funext hq
  unfold encodeValues
  rw [sortStrings_perm_eq hperm, hfun]

theorem proxy_entries_perm {v₁ v₂ : Values}
    (h₁ : (v₁.map Prod.fst).Nodup) (h₂ : (v₂.map Prod.fst).Nodup)
    (hne₁ : ∀ p ∈ v₁, p.2 ≠ []) (hne₂ : ∀ p ∈ v₂, p.2 ≠ [])
    (hq : ∀ k, valuesGetAll v₁ k = valuesGetAll v₂ k) :
    List.Perm (v₁.map fun p => p.1 ++ 61 :: List.intercalate [44] p.2)
      (v₂.map fun p => p.1 ++ 61 :: List.intercalate [44] p.2) := by
  have hperm : List.Perm (v₁.map Prod.fst) (v₂.map Prod.fst) :=
    (List.perm_ext_iff_of_nodup h₁ h₂).mpr fun k => by
      rw [mem_keys_iff_getAll hne₁, mem_keys_iff_getAll hne₂, hq k]
  rw [map_entries_eq v₁ h₁ (fun k vs => k ++ 61 :: List.intercalate [44] vs),
    map_entries_eq v₂ h₂ (fun k vs => k ++ 61 :: List.intercalate [44] vs),
    funext hq]
  exact hperm.map _

/-! ## Claim C7 -/

/-- C7 counterexample: canonicalization is NOT independent of every
permutation of the query-parameter insertion order.  The two raw
queries below carry the same multiset of parameters (their ordered
parameter lists are permutations of each other), but swapping the two
`a` values changes the signing input of both modes (`a=1,2` vs `a=2,1`
in proxy mode, `a=1&a=2` vs `a=2&a=1` in callback mode), flipping each
verification result from true to false. -/
theorem canonicalization_order_dependent :
    List.Perm
      (rawParams (strB
        "a=1&a=2&signature=542525c7d3cd9583106d7e8358cc9c225a4906fd54bf18c6fdbe03c78a2a7dc3"))
      (rawParams (strB
        "a=2&a=1&signature=542525c7d3cd9583106d7e8358cc9c225a4906fd54bf18c6fdbe03c78a2a7dc3")) ∧
    VerifySignature appSec ⟨strB "https", [], [], strB
      "a=1&a=2&signature=542525c7d3cd9583106d7e8358cc9c225a4906fd54bf18c6fdbe03c78a2a7dc3"⟩ =
      true ∧
    VerifySignature appSec ⟨strB "https", [], [], strB
      "a=2&a=1&signature=542525c7d3cd9583106d7e8358cc9c225a4906fd54bf18c6fdbe03c78a2a7dc3"⟩ =
      false ∧
    List.Perm
      (rawParams (strB
        "a=1&a=2&hmac=da99daba246e1cc353f02eb9046f9893d6cc7845a4e12dd7a16fe0352c4d80e4"))
      (rawParams (strB
        "a=2&a=1&hmac=da99daba246e1cc353f02eb9046f9893d6cc7845a4e12dd7a16fe0352c4d80e4")) ∧
    (VerifyAuthorizationURL appSec ⟨strB "https", [], [], strB
      "a=1&a=2&hmac=da99daba246e1cc353f02eb9046f9893d6cc7845a4e12dd7a16fe0352c4d80e4"⟩).1 =
      true ∧
    (VerifyAuthorizationURL appSec ⟨strB "https", [], [], strB
      "a=2&a=1&hmac=da99daba246e1cc353f02eb9046f9893d6cc7845a4e12dd7a16fe0352c4d80e4"⟩).1 =
      false := by
  refine ⟨?_, ?_, ?_, ?_, ?_, ?_⟩ <;> decide

/-- C7 amended: canonicalization is order-independent exactly up to the
induced query map — any two raw queries whose parsed parameter maps
bind every key to the same value sequence (in particular, any two
insertion orders of parameters with pairwise distinct keys, or any
reordering that keeps each key's values in order) produce the same
signing input and the same verification result in both modes. -/
theorem verification_depends_only_on_query_map (app : App) (u₁ u₂ : URL)
    (hq : ∀ k, valuesGetAll (parseQuery u₁.rawQuery) k =
      valuesGetAll (parseQuery u₂.rawQuery) k) :
    specCallbackMessage (parseQuery u₁.rawQuery) = specCallbackMessage (parseQuery u₂.rawQuery) ∧
    (VerifyAuthorizationURL app u₁).1 = (VerifyAuthorizationURL app u₂).1 ∧
    specProxyMessage (parseQuery u₁.rawQuery) = specProxyMessage (parseQuery u₂.rawQuery) ∧
    VerifySignature app u₁ = VerifySignature app u₂ := by
  obtain ⟨h₁n, h₁e⟩ := parseQuery_invariants u₁.rawQuery
  obtain ⟨h₂n, h₂e⟩ := parseQuery_invariants u₂.rawQuery
  have hcb : ∀ k,
      valuesGetAll (valuesDel (valuesDel (parseQuery u₁.rawQuery) (strB "hmac"))
        (strB "signature")) k =
      valuesGetAll (valuesDel (valuesDel (parseQuery u₂.rawQuery) (strB "hmac"))
        (strB "signature")) k := by
    intro k
    rw [valuesGetAll_del, valuesGetAll_del, valuesGetAll_del, valuesGetAll_del, hq k]
  have hpx : ∀ k,
      valuesGetAll (valuesDel (parseQuery u₁.rawQuery) (strB "signature")) k =
      valuesGetAll (valuesDel (parseQuery u₂.rawQuery) (strB "signature")) k := by
    intro k
    rw [valuesGetAll_del, valuesGetAll_del, hq k]
  have hmsg : specCallbackMessage (parseQuery u₁.rawQuery) =
      specCallbackMessage (parseQuery u₂.rawQuery) := by
    unfold specCallbackMessage
    rw [encodeValues_congr (valuesDel_nodupKeys (valuesDel_nodupKeys h₁n _) _)
      (valuesDel_nodupKeys (valuesDel_nodupKeys h₂n _) _)
      (valuesDel_valsNE (valuesDel_valsNE h₁e _) _)
      (valuesDel_valsNE (valuesDel_valsNE h₂e _) _) hcb]
  have hpmsg : specProxyMessage (parseQuery u₁.rawQuery) =
      specProxyMessage (parseQuery u₂.rawQuery) := by
    unfold specProxyMessage
    rw [sortStrings_perm_eq (proxy_entries_perm (valuesDel_nodupKeys h₁n _)
      (valuesDel_nodupKeys h₂n _) (valuesDel_valsNE h₁e _) (valuesDel_valsNE h₂e _) hpx)]
  refine ⟨hmsg, ?_, hpmsg, ?_⟩
  · rw [verifyAuthorizationURL_eq, verifyAuthorizationURL_eq, hmsg]
    unfold valuesGet
    rw [hq (strB "hmac")]
  · rw [verifySignature_eq, verifySignature_eq, hpmsg]
    unfold valuesGet
    rw [hq (strB "signature")]

/-- C7 amended claim witness: two insertion orders of the distinct-key
parameter set `a=1, b=2` give both verifiers the same result. -/
theorem verification_depends_only_on_query_map_witness :
    (VerifyAuthorizationURL appSec ⟨strB "https", [], [], strB "a=1&b=2"⟩).1 =
      (VerifyAuthorizationURL appSec ⟨strB "https", [], [], strB "b=2&a=1"⟩).1 ∧
    VerifySignature appSec ⟨strB "https", [], [], strB "a=1&b=2"⟩ =
      VerifySignature appSec ⟨strB "https", [], [], strB "b=2&a=1"⟩ := by
  have hq : ∀ k, valuesGetAll (parseQuery (strB "a=1&b=2")) k =
      valuesGetAll (parseQuery (strB "b=2&a=1")) k := by
    intro k
    rw [show parseQuery (strB "a=1&b=2") =
        [(strB "a", [strB "1"]), (strB "b", [strB "2"])] from by decide,
      show parseQuery (strB "b=2&a=1") =
        [(strB "b", [strB "2"]), (strB "a", [strB "1"])] from by decide]
    cases hA : (strB "a" == k) <;> cases hB : (strB "b" == k)
    · simp [valuesGetAll, List.find?, hA, hB]
    · simp [valuesGetAll, List.find?, hA, hB]
    · simp [valuesGetAll, List.find?, hA, hB]
    · exact absurd ((eq_of_beq hA).trans (eq_of_beq hB).symm) (by decide)
  have h := verification_depends_only_on_query_map appSec
    ⟨strB "https", [], [], strB "a=1&b=2"⟩ ⟨strB "https", [], [], strB "b=2&a=1"⟩ hq
  exact ⟨h.2.1, h.2.2.2⟩

/-! ## Escaping and parsing lemmas (for claim C8) -/

theorem hexDigitU_ne (n : Nat) : hexDigitU n ≠ 38 ∧ hexDigitU n ≠ 61 ∧ hexDigitU n ≠ 59 := by
  unfold hexDigitU
  split_ifs <;> omega

theorem queryEscape_mem_ne {c : Nat} {s : List Nat} (h : c ∈ queryEscape s) :
    c ≠ 38 ∧ c ≠ 61 ∧ c ≠ 59 := by
  simp only [queryEscape, List.mem_flatMap] at h
  obtain ⟨b, _, hc⟩ := h
  split_ifs at hc with h1 h2
  · simp only [List.mem_cons, List.not_mem_nil, or_false] at hc
    omega
  · simp only [List.mem_cons, List.not_mem_nil, or_false] at hc
    subst hc
    unfold isUnreserved inRange at h2
    simp only [Bool.or_eq_true, Bool.and_eq_true, decide_eq_true_eq, beq_iff_eq] at h2
    omega
  · simp only [List.mem_cons, List.not_mem_nil, or_false] at hc
    rcases hc with hc | hc | hc
    · omega
    · subst hc
      exact hexDigitU_ne _
    · subst hc
      exact hexDigitU_ne _

theorem splitOnByte_no_sep {sep : Nat} :
    ∀ (a acc : List Nat), (∀ c ∈ a, c ≠ sep) → splitOnByte sep a acc = [acc.reverse ++ a]
  | [], acc, _ => by simp [splitOnByte]
  | c :: a, acc, h => by
    rw [splitOnByte, if_neg (h c (by simp)),
      splitOnByte_no_sep a (c :: acc) (fun x hx => h x (by simp [hx]))]
    simp

theorem splitOnByte_append {sep : Nat} :
    ∀ (a b acc : List Nat), (∀ c ∈ a, c ≠ sep) →
      splitOnByte sep (a ++ sep :: b) acc = (acc.reverse ++ a) :: splitOnByte sep b []
  | [], b, acc, _ => by simp [splitOnByte]
  | c :: a, b, acc, h => by
    rw [List.cons_append, splitOnByte, if_neg (h c (by simp)),
      splitOnByte_append a b (c :: acc) (fun x hx => h x (by simp [hx]))]
    simp

theorem cutByte_append {sep : Nat} :
    ∀ (a b : List Nat), (∀ c ∈ a, c ≠ sep) → cutByte sep (a ++ sep :: b) = (a, b)
  | [], b, _ => by simp [cutByte]
  | c :: a, b, h => by
    rw [List.cons_append, cutByte, if_neg (h c (by simp))]
    simp [cutByte_append a b (fun x hx => h x (by simp [hx]))]

theorem isHexB_hexDigitU {n : Nat} (h : n < 16) : isHexB (hexDigitU n) = true := by
  unfold isHexB inRange hexDigitU
  split_ifs <;> (simp only [Bool.or_eq_true, Bool.and_eq_true, decide_eq_true_eq]; omega)

theorem unhex_hexDigitU {n : Nat} (h : n < 16) : unhex (hexDigitU n) = n := by
  unfold unhex hexDigitU
  split_ifs <;> omega

theorem queryUnescape_plus (rest : List Nat) :
    queryUnescape (43 :: rest) = (queryUnescape rest).map (32 :: ·) := by
  rw [queryUnescape.eq_def]
  rfl

theorem queryUnescape_pct (a b : Nat) (rest2 : List Nat) :
    queryUnescape (37 :: a :: b :: rest2) =
      if isHexB a && isHexB b then (queryUnescape rest2).map ((unhex a * 16 + unhex b) :: ·)
      else none := by
  rw [queryUnescape.eq_def]
  rfl

theorem queryUnescape_cons_ne (c : Nat) (rest : List Nat) (h37 : c ≠ 37) (h43 : c ≠ 43) :
    queryUnescape (c :: rest) = (queryUnescape rest).map (c :: ·) := by
  have he : queryUnescape (c :: rest) =
      if c = 37 then
        match rest with
        | a :: b :: rest2 =>
          if isHexB a && isHexB b then (queryUnescape rest2).map ((unhex a * 16 + unhex b) :: ·)
          else none
        | _ => none
      else if c = 43 then (queryUnescape rest).map (32 :: ·)
      else (queryUnescape rest).map (c :: ·) := by
    rw [queryUnescape.eq_def]
  rw [he, if_neg h37, if_neg h43]

theorem queryUnescape_escape : ∀ s : List Nat, (∀ c ∈ s, c < 256) →
    queryUnescape (queryEscape s) = some s
  | [], _ => rfl
  | c :: rest, h => by
    have hc : c < 256 := h c (by simp)
    have ih := queryUnescape_escape rest (fun x hx => h x (by simp [hx]))
    simp only [queryEscape, List.flatMap_cons] at ih ⊢
    by_cases h32 : c = 32
    · subst h32
      rw [if_pos rfl, List.singleton_append, queryUnescape_plus, ih]
      rfl
    · by_cases hun : isUnreserved c = true
      · have hb : c ≠ 37 ∧ c ≠ 43 := by
          unfold isUnreserved inRange at hun
          simp only [Bool.or_eq_true, Bool.and_eq_true, decide_eq_true_eq, beq_iff_eq] at hun
          omega
        rw [if_neg h32, if_pos hun, List.singleton_append,
          queryUnescape_cons_ne c _ hb.1 hb.2, ih]
        rfl
      · rw [if_neg h32, if_neg hun, List.cons_append, List.cons_append, List.cons_append,
          List.nil_append, queryUnescape_pct,
          if_pos (by rw [isHexB_hexDigitU (by omega : c / 16 < 16),
            isHexB_hexDigitU (by omega : c % 16 < 16)]; rfl),
          unhex_hexDigitU (by omega : c / 16 < 16), unhex_hexDigitU (by omega : c % 16 < 16),
          ih, Option.map_some']
        simp only [Option.some.injEq, List.cons.injEq, and_true]
        omega

theorem parseSegment_escape (k v : List Nat) (hk : ∀ c ∈ k, c < 256) (hv : ∀ c ∈ v, c < 256) :
    parseSegment (queryEscape k ++ 61 :: queryEscape v) = some (k, v) := by
  have h59 : (queryEscape k ++ 61 :: queryEscape v).contains 59 = false := by
    have hmem : 59 ∉ queryEscape k ++ 61 :: queryEscape v := by
      intro hmem
      rcases List.mem_append.mp hmem with hm | hm
      · exact (queryEscape_mem_ne hm).2.2 rfl
      · rcases List.mem_cons.mp hm with hm | hm
        · exact absurd hm (by decide)
        · exact (queryEscape_mem_ne hm).2.2 rfl
    simpa using hmem
  have hne : queryEscape k ++ 61 :: queryEscape v ≠ [] := by simp
  have hcut : cutByte 61 (queryEscape k ++ 61 :: queryEscape v) = (queryEscape k, queryEscape v) :=
    cutByte_append _ _ (fun c hc => (queryEscape_mem_ne hc).2.1)
  unfold parseSegment
  rw [h59]
  simp only [Bool.false_eq_true, if_false, if_neg hne, hcut,
    queryUnescape_escape k hk, queryUnescape_escape v hv]

/-! ## Claim C8 -/

theorem goUrlParse_shopBase (shopName : List Nat) (h : ∀ c ∈ shopName, isHostByte c = true) :
    goUrlParse (ShopBaseUrl shopName) =
      ⟨strB "https", shopName ++ strB ".myshopify.com", [], []⟩ := by
  have hdrop : (ShopBaseUrl shopName).drop 8 = shopName ++ strB ".myshopify.com" := by
    unfold ShopBaseUrl
    rw [List.append_assoc, show (8 : Nat) = (strB "https://").length from rfl]
    exact List.drop_left _ _
  have htw : (shopName ++ strB ".myshopify.com").takeWhile (fun c => c != 47 && c != 63) =
      shopName ++ strB ".myshopify.com" := by
    apply List.takeWhile_eq_self_iff.mpr
    intro x hx
    rcases List.mem_append.mp hx with hx | hx
    · have hb := h x hx
      unfold isHostByte inRange at hb
      simp only [Bool.or_eq_true, Bool.and_eq_true, decide_eq_true_eq, beq_iff_eq] at hb
      simp only [bne_iff_ne, ne_eq, Bool.and_eq_true, decide_eq_true_eq]
      omega
    · have hall : ∀ y ∈ strB ".myshopify.com", (y != 47 && y != 63) = true := by decide
      exact hall x hx
  simp only [goUrlParse, hdrop, htw, List.drop_length]
  rfl

theorem intercalate_four (p q r s : List Nat) :
    List.intercalate [38] [p, q, r, s] = p ++ 38 :: (q ++ 38 :: (r ++ 38 :: s)) := by
  simp [List.intercalate, List.intersperse]

theorem encodeValues_authQuery (app : App) (state : List Nat) :
    encodeValues (authQuery app state) =
      (queryEscape (strB "client_id") ++ 61 :: queryEscape app.ApiKey) ++ 38 ::
      ((queryEscape (strB "redirect_uri") ++ 61 :: queryEscape app.RedirectUrl) ++ 38 ::
       ((queryEscape (strB "scope") ++ 61 :: queryEscape app.Scope) ++ 38 ::
        (queryEscape (strB "state") ++ 61 :: queryEscape state))) := by
  have n12 : (strB "client_id" == strB "redirect_uri") = false := by decide
  have n13 : (strB "client_id" == strB "scope") = false := by decide
  have n14 : (strB "client_id" == strB "state") = false := by decide
  have n21 : (strB "redirect_uri" == strB "client_id") = false := by decide
  have n23 : (strB "redirect_uri" == strB "scope") = false := by decide
  have n24 : (strB "redirect_uri" == strB "state") = false := by decide
  have n31 : (strB "scope" == strB "client_id") = false := by decide
  have n32 : (strB "scope" == strB "redirect_uri") = false := by decide
  have n34 : (strB "scope" == strB "state") = false := by decide
  have n41 : (strB "state" == strB "client_id") = false := by decide
  have n42 : (strB "state" == strB "redirect_uri") = false := by decide
  have n43 : (strB "state" == strB "scope") = false := by decide
  have hsort : sortStrings [strB "client_id", strB "redirect_uri", strB "scope", strB "state"] =
      [strB "client_id", strB "redirect_uri", strB "scope", strB "state"] := by decide
  have g1 : valuesGetAll (authQuery app state) (strB "client_id") = [app.ApiKey] := by
    simp [authQuery, valuesGetAll, List.find?]
  have g2 : valuesGetAll (authQuery app state) (strB "redirect_uri") = [app.RedirectUrl] := by
    simp [authQuery, valuesGetAll, List.find?, n12]
  have g3 : valuesGetAll (authQuery app state) (strB "scope") = [app.Scope] := by
    simp [authQuery, valuesGetAll, List.find?, n13, n23]
  have g4 : valuesGetAll (authQuery app state) (strB "state") = [state] := by
    simp [authQuery, valuesGetAll, List.find?, n14, n24, n34]
  have hmap : (authQuery app state).map Prod.fst =
      [strB "client_id", strB "redirect_uri", strB "scope", strB "state"] := by
    simp [authQuery]
  unfold encodeValues
  rw [hmap, hsort]
  simp only [List.flatMap_cons, List.flatMap_nil, g1, g2, g3, g4, List.map_cons, List.map_nil,
    List.append_nil, List.singleton_append]
  rw [intercalate_four]

theorem segment_ne_38 {k v : List Nat} : ∀ c ∈ queryEscape k ++ 61 :: queryEscape v, c ≠ 38 :=
  fun c hc => by
    rcases List.mem_append.mp hc with h | h
    · exact (queryEscape_mem_ne h).1
    · rcases List.mem_cons.mp h with h | h
      · omega
      · exact (queryEscape_mem_ne h).1

theorem parseQuery_authQuery (app : App) (state : List Nat)
    (hk : ∀ c ∈ app.ApiKey, c < 256) (hr : ∀ c ∈ app.RedirectUrl, c < 256)
    (hs : ∀ c ∈ app.Scope, c < 256) (hst : ∀ c ∈ state, c < 256) :
    parseQuery (encodeValues (authQuery app state)) = authQuery app state := by
  have n12 : (strB "client_id" == strB "redirect_uri") = false := by decide
  have n13 : (strB "client_id" == strB "scope") = false := by decide
  have n14 : (strB "client_id" == strB "state") = false := by decide
  have n23 : (strB "redirect_uri" == strB "scope") = false := by decide
  have n24 : (strB "redirect_uri" == strB "state") = false := by decide
  have n34 : (strB "scope" == strB "state") = false := by decide
  have hsplit : splitOnByte 38 (encodeValues (authQuery app state)) [] =
      [queryEscape (strB "client_id") ++ 61 :: queryEscape app.ApiKey,
       queryEscape (strB "redirect_uri") ++ 61 :: queryEscape app.RedirectUrl,
       queryEscape (strB "scope") ++ 61 :: queryEscape app.Scope,
       queryEscape (strB "state") ++ 61 :: queryEscape state] := by
    rw [encodeValues_authQuery,
      splitOnByte_append _ _ _ segment_ne_38,
      splitOnByte_append _ _ _ segment_ne_38,
      splitOnByte_append _ _ _ segment_ne_38,
      splitOnByte_no_sep _ _ segment_ne_38]
    simp
  have ps1 : parseSegment (queryEscape (strB "client_id") ++ 61 :: queryEscape app.ApiKey) =
      some (strB "client_id", app.ApiKey) := parseSegment_escape _ _ (by decide) hk
  have ps2 : parseSegment (queryEscape (strB "redirect_uri") ++
      61 :: queryEscape app.RedirectUrl) = some (strB "redirect_uri", app.RedirectUrl) :=
    parseSegment_escape _ _ (by decide) hr
  have ps3 : parseSegment (queryEscape (strB "scope") ++ 61 :: queryEscape app.Scope) =
      some (strB "scope", app.Scope) := parseSegment_escape _ _ (by decide) hs
  have ps4 : parseSegment (queryEscape (strB "state") ++ 61 :: queryEscape state) =
      some (strB "state", state) := parseSegment_escape _ _ (by decide) hst
  unfold parseQuery rawParams
  rw [hsplit]
  simp only [List.filterMap_cons, ps1, ps2, ps3, ps4, List.filterMap_nil]
  simp [valuesAdd, authQuery, n12, n13, n14, n23, n24, n34]

/-- C8: for every app, state, and shop name of basic host shape,
`AuthorizeUrl` produces the URL
`https://{shop}.myshopify.com/admin/oauth/authorize` whose query is the
encoding of exactly the four bindings `client_id`, `redirect_uri`,
`scope`, `state` (each present even when empty) to the app's API key,
redirect URL, scope, and the given state — parsing the query back
yields exactly those four bindings.  The concrete scenario of the spec
(shop `acme`, key `k1`, redirect `https://app.example/cb`, scope
`read_products`, state `xyz`) is checked in the witness. -/
theorem authorizeUrl_query_exact (app : App) (shopName state : List Nat)
    (hshop : ∀ c ∈ shopName, isHostByte c = true)
    (hk : ∀ c ∈ app.ApiKey, c < 256) (hr : ∀ c ∈ app.RedirectUrl, c < 256)
    (hs : ∀ c ∈ app.Scope, c < 256) (hst : ∀ c ∈ state, c < 256) :
    AuthorizeUrl app shopName state =
      strB "https://" ++ shopName ++ strB ".myshopify.com/admin/oauth/authorize?" ++
        encodeValues (authQuery app state) ∧
    parseQuery (encodeValues (authQuery app state)) = authQuery app state := by
  have n12 : (strB "client_id" == strB "redirect_uri") = false := by decide
  have n13 : (strB "client_id" == strB "scope") = false := by decide
  have n14 : (strB "client_id" == strB "state") = false := by decide
  have n23 : (strB "redirect_uri" == strB "scope") = false := by decide
  have n24 : (strB "redirect_uri" == strB "state") = false := by decide
  have n34 : (strB "scope" == strB "state") = false := by decide
  refine ⟨?_, parseQuery_authQuery app state hk hr hs hst⟩
  have hset : valuesSet (valuesSet (valuesSet (valuesSet [] (strB "client_id") app.ApiKey)
      (strB "redirect_uri") app.RedirectUrl) (strB "scope") app.Scope) (strB "state") state =
      authQuery app state := by
    simp [valuesSet, authQuery, n12, n13, n14, n23, n24, n34]
  have hq : parseQuery ([] : List Nat) = [] := rfl
  have hne : encodeValues (authQuery app state) ≠ [] := by
    rw [encodeValues_authQuery]
    simp
  have hpath : pathEscape (strB "/admin/oauth/authorize") = strB "/admin/oauth/authorize" := by
    decide
  unfold AuthorizeUrl
  rw [goUrlParse_shopBase shopName hshop]
  simp only [hq, hset, urlString, hpath, if_neg hne]
  have hlit : ∀ X : List Nat, strB "https" ++ 58 :: 47 :: 47 :: X = strB "https://" ++ X :=
    fun _ => rfl
  have hlit2 : ∀ X : List Nat,
      strB ".myshopify.com" ++ (strB "/admin/oauth/authorize" ++ 63 :: X) =
        strB ".myshopify.com/admin/oauth/authorize?" ++ X :=
    fun _ => rfl
  rw [show (63 : Nat) :: encodeValues (authQuery app state) =
      63 :: encodeValues (authQuery app state) from rfl]
  simp only [List.append_assoc, hlit, hlit2]

/-- C8 witness: the spec's concrete scenario — the authorize URL for
shop `acme`, API key `k1`, redirect `https://app.example/cb`, scope
`read_products`, state `xyz` — is the expected URL with exactly the
expected query, and parsing the query back yields exactly the four
bindings. -/
theorem authorizeUrl_query_exact_witness :
    AuthorizeUrl appW (strB "acme") (strB "xyz") =
      strB ("https://acme.myshopify.com/admin/oauth/authorize?client_id=k1&" ++
        "redirect_uri=https%3A%2F%2Fapp.example%2Fcb&scope=read_products&state=xyz") ∧
    parseQuery (encodeValues (authQuery appW (strB "xyz"))) = authQuery appW (strB "xyz") := by
  have h := authorizeUrl_query_exact appW (strB "acme") (strB "xyz")
    (by decide) (by decide) (by decide) (by decide) (by decide)
  exact ⟨h.1.trans (by decide), h.2⟩

end GoShopify
